import Mathlib

/-! Shallow embedding of the rating core of `src/app.py` (Nirma Face Rating).

The app keeps two persisted JSON collections: `users` (participant records)
and `votes` (per-voter lists of already-judged pairs).  Python dicts are
modelled as insertion-ordered association lists, ISO timestamps as integer
seconds, and the float Elo arithmetic exactly over the reals, with `round`
for Python's rounding to the nearest integer. -/

/-- CONFIG constant `BASE_ELO` (app.py line 12). -/
def BASE_ELO : ℤ := 1200

/-- CONFIG constant `K_FACTOR` (app.py line 13); it only occurs inside the
float Elo formula, so it is embedded as a real. -/
noncomputable def K_FACTOR : ℝ := 32

/-- CONFIG constant `MAX_VOTES_PER_HOUR` (app.py line 14). -/
def MAX_VOTES_PER_HOUR : ℕ := 15

/-- CONFIG constant `MIN_MATCHES_FOR_STATS` (app.py line 15). -/
def MIN_MATCHES_FOR_STATS : ℕ := 6

/-- One record of the `users` collection, as registration creates it
(app.py lines 135-142).  Timestamps are modelled as integer seconds. -/
structure User where
  password : String
  elo : ℤ
  pic : Option String
  gender : String
  vote_times : List ℤ
  matches_played : ℕ
deriving DecidableEq

/-- The `users` collection: a Python dict modelled as an insertion-ordered
association list (keys are unique in a dict). -/
abbrev Users := List (String × User)

/-- The `votes` collection: per voter, the list of already-judged pairs in
canonical sorted order. -/
abbrev Votes := List (String × List (String × String))

/-- Dict read `d[k]` (first binding wins; a Python dict has unique keys). -/
def dictGet {β : Type} : List (String × β) → String → Option β
  | [], _ => none
  | (k', v) :: rest, k => if k' = k then some v else dictGet rest k

/-- Dict write `d[k] = v`: replaces the existing binding or appends a new
one at the end, as a Python dict preserves insertion order. -/
def dictSet {β : Type} : List (String × β) → String → β → List (String × β)
  | [], k, v => [(k, v)]
  | (k', v') :: rest, k, v =>
      if k' = k then (k', v) :: rest else (k', v') :: dictSet rest k v

/-- In-place update `d[k] = f d[k]` of the first binding for `k` (such as
`users[a]["elo"] = ra`).  An absent key is left untouched: Python would
raise `KeyError` there, and every call site looks up an existing key. -/
def dictModify {β : Type} (f : β → β) : List (String × β) → String → List (String × β)
  | [], _ => []
  | (k', v) :: rest, k =>
      if k' = k then (k', f v) :: rest else (k', v) :: dictModify f rest k

/-- Strict lexicographic order on code points, as Python compares strings. -/
def charsLt : List Char → List Char → Bool
  | [], [] => false
  | [], _ :: _ => true
  | _ :: _, [] => false
  | a :: as, b :: bs =>
      if a.val < b.val then true
      else if b.val < a.val then false
      else charsLt as bs

/-- Python string comparison `a <= b` (lexicographic by code point). -/
def strLe (a b : String) : Bool := !(charsLt b.data a.data)

/-- Model of `sorted([a, b])` on two identity strings: the canonical form
of an unordered pair (app.py line 211). -/
def sortPair (a b : String) : String × String :=
  if strLe a b then (a, b) else (b, a)

/-- Logistic expected score for A (`expected_score`, app.py lines 50-51);
the Python float arithmetic is modelled exactly over the reals. -/
noncomputable def expected_score (ra rb : ℤ) : ℝ :=
  1 / (1 + (10 : ℝ) ^ (((rb : ℝ) - (ra : ℝ)) / 400))

/-- Elo update (`update_elo`, app.py lines 53-57).  Python `round` rounds
ties to the even side, Mathlib `round` rounds them up; a tie would need
`32 / (1 + 10 ^ ((rb - ra) / 400))` to be an odd multiple of `1 / 2`,
which no integer rating difference produces. -/
noncomputable def update_elo (ra rb : ℤ) (sa : ℝ) : ℤ × ℤ :=
  (round ((ra : ℝ) + K_FACTOR * (sa - expected_score ra rb)),
   round ((rb : ℝ) + K_FACTOR * ((1 - sa) - (1 - expected_score ra rb))))

/-- Ascending stable sort of `users.items()` by rating, modelling
`sorted(users_list.items(), key=lambda x: x[1]["elo"])` (app.py line 60);
insertion sort with a non-strict comparison is stable, as Python `sorted`
is. -/
def sorted_users (users_list : Users) : Users :=
  users_list.insertionSort (fun a b => a.2.elo ≤ b.2.elo)

/-- Percentile table (`compute_percentiles`, app.py lines 59-66), as the
association list the loop over `enumerate(sorted_users)` builds. -/
def compute_percentiles (users_list : Users) : List (String × ℚ) :=
  let su := sorted_users users_list
  let N := su.length
  su.enum.map
    (fun rkv => (rkv.2.1, if N > 1 then (rkv.1 : ℚ) / ((N : ℚ) - 1) * 100 else 100))

/-- Pruning of a voter's stored vote timestamps to the trailing one-hour
window (app.py lines 182-185): keep `t` with `now - t < timedelta(hours=1)`,
i.e. strictly less than 3600 seconds old. -/
def prune_vote_times (now : ℤ) (ts : List ℤ) : List ℤ :=
  ts.filter (fun t => decide (now - t < 3600))

/-- Rate-limit check (app.py line 187): voting is blocked exactly when the
pruned timestamp list has reached `MAX_VOTES_PER_HOUR` entries. -/
def vote_limit_reached (now : ℤ) (ts : List ℤ) : Bool :=
  decide (MAX_VOTES_PER_HOUR ≤ (prune_vote_times now ts).length)

/-- Eligible opponents (app.py lines 190-193): uploaded a photo, not the
voter, same gender as the voter. -/
def eligible_users (users : Users) (user_email user_gender : String) : List String :=
  (users.filter (fun kv =>
      kv.2.pic.isSome && (decide (kv.1 ≠ user_email) &&
        decide (kv.2.gender = user_gender)))).map Prod.fst

/-- Number of participants with an uploaded photo across the whole store
(app.py line 205). -/
def uploaded_photos_count (users : Users) : ℕ :=
  (users.filter (fun kv => kv.2.pic.isSome)).length

/-- Similar-Elo matching is active once at least 30 photos exist
(app.py line 206). -/
def use_elo_matching (users : Users) : Bool :=
  decide (uploaded_photos_count users ≥ 30)

/-- Rating read `users[k]["elo"]`.  The default `0` stands for the
`KeyError` Python would raise on a key outside the store, which no call
site reaches. -/
def eloOf (users : Users) (k : String) : ℤ :=
  ((dictGet users k).map User.elo).getD 0

/-- All pairs of list elements at positions `i < j`, in the order of the
nested loops at app.py lines 209-210. -/
def allPairs {α : Type} : List α → List (α × α)
  | [] => []
  | x :: xs => xs.map (fun y => (x, y)) ++ allPairs xs

/-- Candidate pairs (app.py lines 208-221): canonical sorted pairs of
eligible participants that the voter has not judged, restricted to a
rating difference of at most 100 when similar-Elo matching is active. -/
def possible_pairs (users : Users) (eligible : List String)
    (tried_pairs : List (String × String)) : List (String × String) :=
  ((allPairs eligible).map (fun xy => sortPair xy.1 xy.2)).filter
    (fun pair =>
      decide (pair ∉ tried_pairs) &&
        (if use_elo_matching users then
          decide (|eloOf users pair.1 - eloOf users pair.2| ≤ 100)
         else true))

/-- Pair selection for one voting screen (app.py lines 190-226): `none` is
the "no pair available" empty state (fewer than two eligible participants,
or every candidate pair already judged or filtered out); otherwise one of
the candidate pairs, `random.choice` being modelled by the free index
`choice`. -/
def selectPair (users : Users) (user_email user_gender : String)
    (votes : Votes) (choice : ℕ) : Option (String × String) :=
  let eligible := eligible_users users user_email user_gender
  if eligible.length < 2 then none
  else
    let tried_pairs := (dictGet votes user_email).getD []
    let pp := possible_pairs users eligible tried_pairs
    pp[choice % pp.length]?

/-- State mutation of one accepted vote (app.py lines 232-237 for "left
looks better" with `sa = 1`, lines 245-250 for "right looks better" with
`sa = 0`): the paired Elo update, both match counters, the voter's history
and the voter's timestamp list. -/
noncomputable def applyVote (users : Users) (votes : Votes)
    (user_email a b : String) (sa : ℝ) (now : ℤ) : Users × Votes :=
  let p := update_elo (eloOf users a) (eloOf users b) sa
  let users1 := dictModify (fun u => { u with elo := p.1 }) users a
  let users2 := dictModify (fun u => { u with elo := p.2 }) users1 b
  let users3 := dictModify (fun u => { u with matches_played := u.matches_played + 1 }) users2 a
  let users4 := dictModify (fun u => { u with matches_played := u.matches_played + 1 }) users3 b
  let users5 := dictModify (fun u => { u with vote_times := u.vote_times ++ [now] }) users4 user_email
  let votes1 := dictModify (fun l => l ++ [sortPair a b]) votes user_email
  (users5, votes1)

/-- Persisted effect of one visit to the voting screen (app.py lines
181-253).  `save_json` runs only on an accepted vote, so every blocked
branch (rate limit, fewer than two eligible participants, no candidate
pair) returns the two persisted collections exactly as loaded; an accepted
vote persists the pruned-and-extended timestamp list together with the
paired rating update and the history entry. -/
noncomputable def voteStep (users : Users) (votes : Votes)
    (user_email : String) (now : ℤ) (choice : ℕ) (sa : ℝ) : Users × Votes :=
  match dictGet users user_email with
  | none => (users, votes)
  | some uv =>
    let pruned := prune_vote_times now uv.vote_times
    if MAX_VOTES_PER_HOUR ≤ pruned.length then (users, votes)
    else
      let users1 := dictModify (fun u => { u with vote_times := pruned }) users user_email
      let votes1 := if (dictGet votes user_email).isSome then votes
                    else dictSet votes user_email []
      match selectPair users1 user_email uv.gender votes1 choice with
      | none => (users, votes)
      | some ab => applyVote users1 votes1 user_email ab.1 ab.2 sa now

/-- Fresh participant record with a chosen rating, photo and gender, for
concrete test stores. -/
def mkUser (elo : ℤ) (pic : Option String) (gender : String) : User :=
  { password := "", elo := elo, pic := pic, gender := gender,
    vote_times := [], matches_played := 0 }

/-- Expected score between two equal ratings is exactly one half. -/
lemma expected_score_1200 : expected_score 1200 1200 = 1 / 2 := by
  unfold expected_score
  rw [show (((1200 : ℤ) : ℝ) - ((1200 : ℤ) : ℝ)) / 400 = 0 by norm_num, Real.rpow_zero]
  norm_num

/-- The worked example of the spec: equal ratings, A wins, K = 32. -/
lemma update_elo_1200 : update_elo 1200 1200 1 = (1216, 1184) := by
  unfold update_elo K_FACTOR
  rw [expected_score_1200]
  have h1 : ((1200 : ℤ) : ℝ) + 32 * (1 - 1 / 2) = ((1216 : ℤ) : ℝ) := by norm_num
  have h2 : ((1200 : ℤ) : ℝ) + 32 * ((1 - 1) - (1 - 1 / 2)) = ((1184 : ℤ) : ℝ) := by norm_num
  rw [h1, h2, round_intCast, round_intCast]

/-- C1: for outcomes 0 and 1, `update_elo` returns exactly the rounded
logistic update `(round (ra + 32(sa - Ea)), round (rb + 32((1-sa) - (1-Ea))))`
with `Ea = 1 / (1 + 10 ^ ((rb - ra) / 400))`, and in particular
`update_elo 1200 1200 1 = (1216, 1184)`. -/
theorem update_elo_matches_spec (ra rb : ℤ) (sa : ℝ) (hsa : sa = 0 ∨ sa = 1) :
    update_elo ra rb sa =
      (round ((ra : ℝ) + 32 * (sa - 1 / (1 + (10 : ℝ) ^ (((rb : ℝ) - (ra : ℝ)) / 400)))),
       round ((rb : ℝ) + 32 * ((1 - sa) - (1 - 1 / (1 + (10 : ℝ) ^ (((rb : ℝ) - (ra : ℝ)) / 400)))))) ∧
    update_elo 1200 1200 1 = (1216, 1184) :=
  ⟨rfl, update_elo_1200⟩

/-- Witness for C1 at the spec's worked example. -/
theorem update_elo_matches_spec_witness : update_elo 1200 1200 1 = (1216, 1184) :=
  (update_elo_matches_spec 1200 1200 1 (Or.inr rfl)).2

/-- Rounding a real and its negation can only create a joint drift of 0 or 1. -/
lemma round_add_round_neg_bounds (x : ℝ) :
    0 ≤ round x + round (-x) ∧ round x + round (-x) ≤ 1 := by
  rw [round_eq, round_eq]
  have h1 : (↑⌊x + 1 / 2⌋ : ℝ) ≤ x + 1 / 2 := Int.floor_le _
  have h2 : x + 1 / 2 - 1 < (↑⌊x + 1 / 2⌋ : ℝ) := Int.sub_one_lt_floor _
  have h3 : (↑⌊-x + 1 / 2⌋ : ℝ) ≤ -x + 1 / 2 := Int.floor_le _
  have h4 : -x + 1 / 2 - 1 < (↑⌊-x + 1 / 2⌋ : ℝ) := Int.sub_one_lt_floor _
  constructor
  · have hc : (-1 : ℝ) < ↑(⌊x + 1 / 2⌋ + ⌊-x + 1 / 2⌋) := by push_cast; linarith
    have hz : (-1 : ℤ) < ⌊x + 1 / 2⌋ + ⌊-x + 1 / 2⌋ := by exact_mod_cast hc
    omega
  · have hc : (↑(⌊x + 1 / 2⌋ + ⌊-x + 1 / 2⌋) : ℝ) ≤ 1 := by push_cast; linarith
    exact_mod_cast hc

/-- C2: the two ratings returned by `update_elo` sum to the old ratings up
to the error of rounding each side to the nearest integer. -/
theorem update_elo_zero_sum (ra rb : ℤ) (sa : ℝ) (hsa : sa = 0 ∨ sa = 1) :
    |((update_elo ra rb sa).1 + (update_elo ra rb sa).2) - (ra + rb)| ≤ 1 := by
  unfold update_elo
  dsimp only
  have he : K_FACTOR * ((1 - sa) - (1 - expected_score ra rb)) =
      -(K_FACTOR * (sa - expected_score ra rb)) := by ring
  rw [he, round_int_add (K_FACTOR * (sa - expected_score ra rb)) ra,
    round_int_add (-(K_FACTOR * (sa - expected_score ra rb))) rb]
  have hb := round_add_round_neg_bounds (K_FACTOR * (sa - expected_score ra rb))
  rw [abs_le]
  omega

/-- Witness for C2 at two equal ratings with outcome 1. -/
theorem update_elo_zero_sum_witness :
    |((update_elo 1200 1200 1).1 + (update_elo 1200 1200 1).2) - (1200 + 1200)| ≤ 1 :=
  update_elo_zero_sum 1200 1200 1 (Or.inr rfl)

/-- Percentile values over `n` ranks are pairwise distinct. -/
lemma range_percentile_nodup (n : ℕ) :
    ((List.range n).map
      (fun r : ℕ => if n > 1 then (r : ℚ) / ((n : ℚ) - 1) * 100 else 100)).Nodup := by
  rcases n with _ | _ | m
  · simp
  · simp
  · refine List.Nodup.map ?_ (List.nodup_range _)
    intro r1 r2 h
    have hgt : m + 1 + 1 > 1 := by omega
    simp only [if_pos hgt] at h
    have hc : ((m + 1 + 1 : ℕ) : ℚ) - 1 = (m : ℚ) + 1 := by push_cast; ring
    rw [hc] at h
    have hne : (m : ℚ) + 1 ≠ 0 := by positivity
    field_simp [hne] at h
    exact h

/-- The percentile table lists the second components of the enumerated
sorted store mapped through the rank formula. -/
lemma compute_percentiles_map_snd (ul : Users) :
    (compute_percentiles ul).map Prod.snd =
      (List.range (sorted_users ul).length).map
        (fun r : ℕ => if (sorted_users ul).length > 1 then
          (r : ℚ) / (((sorted_users ul).length : ℚ) - 1) * 100 else 100) := by
  simp only [compute_percentiles, List.map_map]
  rw [← List.enum_map_fst (sorted_users ul), List.map_map]
  rfl

/-- C6: `compute_percentiles` works globally on the store: the store is
sorted ascending by rating, the participant at 0-indexed rank `r` receives
percentile `r / (N - 1) * 100` whenever `N > 1`, a sole participant
receives 100, and ratings 1000/1200/1400 receive percentiles 0/50/100. -/
theorem compute_percentiles_rank (ul : Users) :
    List.Sorted (fun a b : String × User => a.2.elo ≤ b.2.elo) (sorted_users ul) ∧
    (∀ r kv, (r, kv) ∈ (sorted_users ul).enum → 1 < ul.length →
      (kv.1, (r : ℚ) / ((ul.length : ℚ) - 1) * 100) ∈ compute_percentiles ul) ∧
    (∀ k u, compute_percentiles [(k, u)] = [(k, 100)]) ∧
    compute_percentiles
        [("a", mkUser 1000 none "M"), ("b", mkUser 1200 none "M"),
          ("c", mkUser 1400 none "M")] =
      [("a", 0), ("b", 50), ("c", 100)] := by
  refine ⟨?_, ?_, ?_, ?_⟩
  · haveI ht : IsTotal (String × User) (fun a b => a.2.elo ≤ b.2.elo) :=
      ⟨fun a b => le_total _ _⟩
    haveI htr : IsTrans (String × User) (fun a b => a.2.elo ≤ b.2.elo) :=
      ⟨fun a b c => le_trans⟩
    exact List.sorted_insertionSort _ _
  · intro r kv hmem hN
    have hlen : (sorted_users ul).length = ul.length := List.length_insertionSort _ _
    have hmm := List.mem_map_of_mem (fun rkv : ℕ × (String × User) =>
      (rkv.2.1, if (sorted_users ul).length > 1 then
        (rkv.1 : ℚ) / (((sorted_users ul).length : ℚ) - 1) * 100 else 100)) hmem
    simp only [compute_percentiles]
    rw [hlen] at hmm ⊢
    simpa [hN] using hmm
  · intro k u
    rfl
  · norm_num [compute_percentiles, sorted_users, mkUser, List.insertionSort,
      List.orderedInsert, List.enum, List.enumFrom]

/-- C10: every participant receives a distinct percentile; equal ratings
get consecutive distinct ranks in store-enumeration order, as in the tied
two-participant store shown. -/
theorem compute_percentiles_distinct (ul : Users) :
    ((compute_percentiles ul).map Prod.snd).Nodup ∧
    compute_percentiles [("b", mkUser 1200 none "M"), ("a", mkUser 1200 none "M")] =
      [("b", 0), ("a", 100)] := by
  constructor
  · rw [compute_percentiles_map_snd]
    exact range_percentile_nodup _
  · norm_num [compute_percentiles, sorted_users, mkUser, List.insertionSort,
      List.orderedInsert, List.enum, List.enumFrom]

/-- C5: the rate limiter prunes to timestamps strictly less than one hour
old and blocks exactly when the pruned count reaches 15; fifteen in-window
votes block the next attempt, and a voter whose timestamps are all at
least an hour old is allowed again. -/
theorem rate_limiter_window (now : ℤ) (ts : List ℤ) :
    (vote_limit_reached now ts = true ↔
      15 ≤ (ts.filter (fun t => decide (now - t < 3600))).length) ∧
    (ts.length = 15 → (∀ t ∈ ts, now - t < 3600) → vote_limit_reached now ts = true) ∧
    ((∀ t ∈ ts, 3600 ≤ now - t) → vote_limit_reached now ts = false) := by
  refine ⟨?_, ?_, ?_⟩
  · simp [vote_limit_reached, prune_vote_times, MAX_VOTES_PER_HOUR]
  · intro hlen hwin
    have hp : prune_vote_times now ts = ts :=
      List.filter_eq_self.mpr (fun t ht => decide_eq_true (hwin t ht))
    simp [vote_limit_reached, hp, hlen, MAX_VOTES_PER_HOUR]
  · intro hout
    have hp : prune_vote_times now ts = [] :=
      List.filter_eq_nil_iff.mpr
        (fun t ht => by simpa using not_lt.mpr (hout t ht))
    simp [vote_limit_reached, hp, MAX_VOTES_PER_HOUR]

/-- Witness for C5: fifteen votes 200 seconds old block the sixteenth
attempt; 61 minutes after those votes the same voter is allowed again. -/
theorem rate_limiter_window_witness :
    vote_limit_reached 7200 (List.replicate 15 7000) = true ∧
    vote_limit_reached 10660 (List.replicate 15 7000) = false :=
  ⟨(rate_limiter_window 7200 (List.replicate 15 7000)).2.1 (by decide) (by decide),
   (rate_limiter_window 10660 (List.replicate 15 7000)).2.2 (by decide)⟩

/-- C3: a pair returned by `selectPair` is never one that the voter's
history already contains. -/
theorem selectPair_not_in_history (users : Users) (user_email user_gender : String)
    (votes : Votes) (choice : ℕ) (p : String × String)
    (h : selectPair users user_email user_gender votes choice = some p) :
    p ∉ (dictGet votes user_email).getD [] := by
  simp only [selectPair] at h
  split at h
  · exact absurd h (by simp)
  · have hmem := List.getElem?_mem h
    simp only [possible_pairs] at hmem
    have hf := (List.mem_filter.mp hmem).2
    rw [Bool.and_eq_true] at hf
    exact of_decide_eq_true hf.1

/-- Concrete store for the C3 witness: three eligible peers and a history
already containing the canonical pair of the first two. -/
def c3Users : Users :=
  [("v", mkUser 1200 (some "p") "M"), ("a", mkUser 1200 (some "p") "M"),
   ("b", mkUser 1200 (some "p") "M"), ("c", mkUser 1200 (some "p") "M")]

/-- Vote history for the C3 witness. -/
def c3Votes : Votes := [("v", [("a", "b")])]

/-- Witness for C3: with pair ("a","b") already judged, the selected pair
("a","c") is not in the voter's history. -/
theorem selectPair_not_in_history_witness :
    ("a", "c") ∉ (dictGet c3Votes "v").getD [] :=
  selectPair_not_in_history c3Users "v" "M" c3Votes 0 ("a", "c") (by decide)

/-- C4: below 30 uploaded photos the candidate pairs carry no
rating-difference restriction at all; from 30 photos on, every pair
`selectPair` returns has rating difference at most 100. -/
theorem elo_matching_threshold (users : Users) (user_email user_gender : String)
    (votes : Votes) (choice : ℕ) :
    (uploaded_photos_count users < 30 →
      ∀ (eligible : List String) (tried_pairs : List (String × String)),
        possible_pairs users eligible tried_pairs =
          ((allPairs eligible).map (fun xy => sortPair xy.1 xy.2)).filter
            (fun pair => decide (pair ∉ tried_pairs))) ∧
    (30 ≤ uploaded_photos_count users →
      ∀ p, selectPair users user_email user_gender votes choice = some p →
        |eloOf users p.1 - eloOf users p.2| ≤ 100) := by
  constructor
  · intro hlt eligible tried_pairs
    have hm : use_elo_matching users = false := by
      simp only [use_elo_matching, decide_eq_false_iff_not]
      omega
    simp [possible_pairs, hm]
  · intro hge p h
    have hm : use_elo_matching users = true := by
      simp only [use_elo_matching, decide_eq_true_eq]
      omega
    simp only [selectPair] at h
    split at h
    · exact absurd h (by simp)
    · have hmem := List.getElem?_mem h
      simp only [possible_pairs] at hmem
      have hf := (List.mem_filter.mp hmem).2
      rw [Bool.and_eq_true, hm] at hf
      have hd := hf.2
      simp only [if_true] at hd
      exact of_decide_eq_true hd

/-- Two-photo store for the first half of the C4 witness. -/
def c4SmallUsers : Users :=
  [("a", mkUser 1200 (some "p") "M"), ("b", mkUser 1250 (some "p") "M")]

/-- Thirty-photo store for the second half of the C4 witness: 28 uploaded
participants of the other gender plus the two eligible peers. -/
def c4BigUsers : Users :=
  (List.range 28).map (fun i => ("f" ++ toString i, mkUser 1200 (some "p") "F")) ++
    [("a", mkUser 1200 (some "p") "M"), ("b", mkUser 1250 (some "p") "M")]

/-- Witness for C4: with 2 photos the candidate list is only deduplicated
against history, and with 30 photos the selected pair stays within 100
rating points. -/
theorem elo_matching_threshold_witness :
    (possible_pairs c4SmallUsers ["a", "b"] [] =
      ((allPairs ["a", "b"]).map (fun xy => sortPair xy.1 xy.2)).filter
        (fun pair => decide (pair ∉ ([] : List (String × String))))) ∧
    |eloOf c4BigUsers "a" - eloOf c4BigUsers "b"| ≤ 100 :=
  ⟨(elo_matching_threshold c4SmallUsers "v" "M" [] 0).1 (by decide) ["a", "b"] [],
   (elo_matching_threshold c4BigUsers "v" "M" [] 0).2 (by decide) ("a", "b") (by decide)⟩

/-- C8: `selectPair` signals "no pair available" as the empty result value
`none`, and does so exactly when fewer than two eligible participants
exist or no valid candidate pair remains; otherwise it returns a full
pair. -/
theorem selectPair_empty_state (users : Users) (user_email user_gender : String)
    (votes : Votes) (choice : ℕ) :
    selectPair users user_email user_gender votes choice = none ↔
      ((eligible_users users user_email user_gender).length < 2 ∨
        possible_pairs users (eligible_users users user_email user_gender)
          ((dictGet votes user_email).getD []) = []) := by
  simp only [selectPair]
  split
  · rename_i hlt
    simp [hlt]
  · rename_i hge
    rw [List.getElem?_eq_none_iff]
    constructor
    · intro hlen
      by_cases hpp : possible_pairs users (eligible_users users user_email user_gender)
          ((dictGet votes user_email).getD []) = []
      · exact Or.inr hpp
      · exfalso
        have hpos : 0 < (possible_pairs users (eligible_users users user_email user_gender)
            ((dictGet votes user_email).getD [])).length :=
          List.length_pos.mpr hpp
        have := Nat.mod_lt choice hpos
        omega
    · intro hor
      rcases hor with hlt | hpp
      · exact absurd hlt hge
      · rw [hpp]
        simp

/-- Reading a key back through an in-place update of a possibly different
key. -/
lemma dictGet_dictModify {β : Type} (f : β → β) (d : List (String × β)) (k' k : String) :
    dictGet (dictModify f d k') k =
      if k = k' then (dictGet d k).map f else dictGet d k := by
  induction d with
  | nil => simp [dictModify, dictGet]
  | cons kv rest ih =>
    obtain ⟨k0, v⟩ := kv
    by_cases h0 : k0 = k'
    · subst h0
      simp only [dictModify, if_pos rfl]
      by_cases h1 : k0 = k
      · subst h1
        simp [dictGet]
      · have h2 : ¬(k = k0) := fun h => h1 h.symm
        simp [dictGet, h1, h2]
    · simp only [dictModify, if_neg h0]
      by_cases h1 : k0 = k
      · subst h1
        simp [dictGet, fun h : k0 = k' => h0 h]
      · simp [dictGet, h1, ih]

/-- Reading the key just written by `dictSet`. -/
lemma dictGet_dictSet_self {β : Type} (d : List (String × β)) (k : String) (v : β) :
    dictGet (dictSet d k v) k = some v := by
  induction d with
  | nil => simp [dictSet, dictGet]
  | cons kv rest ih =>
    obtain ⟨k0, v0⟩ := kv
    by_cases h0 : k0 = k
    · subst h0
      simp [dictSet, dictGet]
    · simp [dictSet, dictGet, h0, ih]

/-- C7: an accepted vote updates both ratings through one paired
`update_elo` call, increments both match counters, appends the canonical
sorted pair to the voter's history and the timestamp to the voter's
timestamp list. -/
theorem vote_paired_update
    (users : Users) (votes : Votes) (user_email a b : String) (sa : ℝ) (now : ℤ)
    (ua ub uv : User) (hist : List (String × String))
    (hab : a ≠ b) (hva : user_email ≠ a) (hvb : user_email ≠ b)
    (ha : dictGet users a = some ua) (hb : dictGet users b = some ub)
    (hv : dictGet users user_email = some uv)
    (hh : dictGet votes user_email = some hist) :
    dictGet (applyVote users votes user_email a b sa now).1 a =
      some { ua with elo := (update_elo ua.elo ub.elo sa).1,
                     matches_played := ua.matches_played + 1 } ∧
    dictGet (applyVote users votes user_email a b sa now).1 b =
      some { ub with elo := (update_elo ua.elo ub.elo sa).2,
                     matches_played := ub.matches_played + 1 } ∧
    dictGet (applyVote users votes user_email a b sa now).1 user_email =
      some { uv with vote_times := uv.vote_times ++ [now] } ∧
    dictGet (applyVote users votes user_email a b sa now).2 user_email =
      some (hist ++ [sortPair a b]) := by
  have hea : eloOf users a = ua.elo := by simp [eloOf, ha]
  have heb : eloOf users b = ub.elo := by simp [eloOf, hb]
  simp only [applyVote, hea, heb]
  refine ⟨?_, ?_, ?_, ?_⟩
  · rw [dictGet_dictModify, if_neg (Ne.symm hva), dictGet_dictModify, if_neg hab,
      dictGet_dictModify, if_pos rfl, dictGet_dictModify, if_neg hab,
      dictGet_dictModify, if_pos rfl, ha]
    rfl
  · rw [dictGet_dictModify, if_neg (Ne.symm hvb), dictGet_dictModify, if_pos rfl,
      dictGet_dictModify, if_neg (Ne.symm hab), dictGet_dictModify, if_pos rfl,
      dictGet_dictModify, if_neg (Ne.symm hab), hb]
    rfl
  · rw [dictGet_dictModify, if_pos rfl, dictGet_dictModify, if_neg hvb,
      dictGet_dictModify, if_neg hva, dictGet_dictModify, if_neg hvb,
      dictGet_dictModify, if_neg hva, hv]
    rfl
  · rw [dictGet_dictModify, if_pos rfl, hh]
    rfl

/-- Concrete store for the C7 witness: voter "v" and two uploaded peers
"a" and "b", both rated 1200 with no matches yet. -/
def c7Users : Users :=
  [("v", mkUser 1200 none "M"), ("a", mkUser 1200 (some "pa") "M"),
   ("b", mkUser 1200 (some "pb") "M")]

/-- Vote history for the C7 witness. -/
def c7Votes : Votes := [("v", [])]

/-- Witness for C7: the vote "A wins" at 1200 vs 1200 leaves A at 1216 and
B at 1184, both match counters at 1, and the sorted pair in the voter's
history. -/
theorem vote_paired_update_witness :
    dictGet (applyVote c7Users c7Votes "v" "a" "b" 1 0).1 "a" =
      some { mkUser 1200 (some "pa") "M" with elo := 1216, matches_played := 1 } ∧
    dictGet (applyVote c7Users c7Votes "v" "a" "b" 1 0).1 "b" =
      some { mkUser 1200 (some "pb") "M" with elo := 1184, matches_played := 1 } ∧
    dictGet (applyVote c7Users c7Votes "v" "a" "b" 1 0).2 "v" = some [("a", "b")] := by
  obtain ⟨h1, h2, h3, h4⟩ := vote_paired_update c7Users c7Votes "v" "a" "b" 1 0
    (mkUser 1200 (some "pa") "M") (mkUser 1200 (some "pb") "M") (mkUser 1200 none "M") []
    (by decide) (by decide) (by decide) (by decide) (by decide) (by decide) (by decide)
  refine ⟨?_, ?_, ?_⟩
  · simp only [mkUser] at h1 ⊢
    rw [update_elo_1200] at h1
    simpa using h1
  · simp only [mkUser] at h2 ⊢
    rw [update_elo_1200] at h2
    simpa using h2
  · have hs : sortPair "a" "b" = ("a", "b") := by decide
    rw [hs] at h4
    simpa using h4

/-- The eligibility list ignores in-place updates of the voter's own
record, since the voter is excluded from it anyway. -/
lemma eligible_users_dictModify (f : User → User) (users : Users)
    (user_email user_gender : String) :
    eligible_users (dictModify f users user_email) user_email user_gender =
      eligible_users users user_email user_gender := by
  induction users with
  | nil => rfl
  | cons kv rest ih =>
    obtain ⟨k0, v⟩ := kv
    simp only [eligible_users] at ih
    by_cases h0 : k0 = user_email
    · subst h0
      simp [eligible_users, dictModify, List.filter_cons]
    · simp only [eligible_users, dictModify, if_neg h0, List.filter_cons]
      by_cases hp : ((k0, v).2.pic.isSome && (decide ((k0, v).1 ≠ user_email) &&
          decide ((k0, v).2.gender = user_gender))) = true
      · rw [if_pos hp, if_pos hp, List.map_cons, List.map_cons, ih]
      · rw [if_neg hp, if_neg hp, ih]

/-- The photo count ignores an in-place update that keeps the photo
reference. -/
lemma uploaded_photos_count_dictModify (f : User → User) (users : Users) (k : String)
    (hf : ∀ u, (f u).pic = u.pic) :
    uploaded_photos_count (dictModify f users k) = uploaded_photos_count users := by
  induction users with
  | nil => rfl
  | cons kv rest ih =>
    obtain ⟨k0, v⟩ := kv
    simp only [uploaded_photos_count] at ih
    by_cases h0 : k0 = k
    · subst h0
      simp only [uploaded_photos_count, dictModify, if_pos rfl]
      by_cases hp : v.pic.isSome = true
      · simp [List.filter_cons, hf, hp]
      · simp [List.filter_cons, hf, hp]
    · simp only [uploaded_photos_count, dictModify, if_neg h0, List.filter_cons]
      by_cases hp : ((k0, v).2.pic.isSome) = true
      · rw [if_pos hp, if_pos hp, List.length_cons, List.length_cons, ih]
      · rw [if_neg hp, if_neg hp, ih]

/-- Ratings ignore an in-place update that keeps the rating. -/
lemma eloOf_dictModify (f : User → User) (users : Users) (k : String)
    (hf : ∀ u, (f u).elo = u.elo) (q : String) :
    eloOf (dictModify f users k) q = eloOf users q := by
  unfold eloOf
  rw [dictGet_dictModify]
  by_cases h : q = k
  · rw [if_pos h]
    cases hg : dictGet users q with
    | none => simp
    | some u => simp [hf]
  · rw [if_neg h]

/-- Candidate pairs ignore an in-place update of any record that keeps
photo and rating. -/
lemma possible_pairs_dictModify (f : User → User) (users : Users) (k : String)
    (hfp : ∀ u, (f u).pic = u.pic) (hfe : ∀ u, (f u).elo = u.elo)
    (eligible : List String) (tried_pairs : List (String × String)) :
    possible_pairs (dictModify f users k) eligible tried_pairs =
      possible_pairs users eligible tried_pairs := by
  unfold possible_pairs
  rw [show use_elo_matching (dictModify f users k) = use_elo_matching users by
    simp [use_elo_matching, uploaded_photos_count_dictModify f users k hfp]]
  rw [show eloOf (dictModify f users k) = eloOf users from
    funext (eloOf_dictModify f users k hfe)]

/-- Pair selection is unchanged by persisting the pruned timestamp list
into the voter's record and by initializing an absent history to `[]`. -/
lemma selectPair_vote_screen (users : Users) (votes : Votes)
    (user_email user_gender : String) (choice : ℕ) (ts : List ℤ) :
    selectPair (dictModify (fun u => { u with vote_times := ts }) users user_email)
        user_email user_gender
        (if (dictGet votes user_email).isSome then votes else dictSet votes user_email [])
        choice =
      selectPair users user_email user_gender votes choice := by
  simp only [selectPair]
  rw [eligible_users_dictModify,
    possible_pairs_dictModify (fun u => { u with vote_times := ts }) users user_email
      (fun u => rfl) (fun u => rfl)]
  rw [show (dictGet (if (dictGet votes user_email).isSome then votes
      else dictSet votes user_email []) user_email).getD [] =
      (dictGet votes user_email).getD [] by
    cases hg : dictGet votes user_email with
    | some l => simp [hg]
    | none => simp [hg, dictGet_dictSet_self]]

/-- C9: a blocked vote attempt (rate limit reached, or no pair available,
which covers fewer than two eligible participants and an exhausted
candidate list) leaves both persisted collections exactly as loaded. -/
theorem blocked_vote_preserves_state
    (users : Users) (votes : Votes) (user_email : String) (now : ℤ)
    (choice : ℕ) (sa : ℝ) (uv : User)
    (hv : dictGet users user_email = some uv) :
    (MAX_VOTES_PER_HOUR ≤ (prune_vote_times now uv.vote_times).length →
      voteStep users votes user_email now choice sa = (users, votes)) ∧
    ((prune_vote_times now uv.vote_times).length < MAX_VOTES_PER_HOUR →
      selectPair users user_email uv.gender votes choice = none →
      voteStep users votes user_email now choice sa = (users, votes)) := by
  constructor
  · intro hlim
    simp only [voteStep, hv]
    rw [if_pos hlim]
  · intro hlim hsel
    simp only [voteStep, hv]
    rw [if_neg (not_le.mpr hlim), selectPair_vote_screen, hsel]

/-- Store for the C9 witness: one voter who already cast fifteen votes 200
seconds ago. -/
def c9Users : Users :=
  [("v", { password := "", elo := 1200, pic := none, gender := "M",
           vote_times := List.replicate 15 7000, matches_played := 0 })]

/-- Witness for C9: the rate-limited sixteenth attempt persists nothing. -/
theorem blocked_vote_preserves_state_witness :
    voteStep c9Users [] "v" 7200 0 1 = (c9Users, []) :=
  (blocked_vote_preserves_state c9Users [] "v" 7200 0 1
      { password := "", elo := 1200, pic := none, gender := "M",
        vote_times := List.replicate 15 7000, matches_played := 0 }
      (by decide)).1 (by decide)

/-- Witness for C6: in the three-participant store with ratings
1000/1200/1400 the middle participant sits at rank 1 of 3 and receives
percentile 1 / (3 - 1) * 100. -/
theorem compute_percentiles_rank_witness :
    ("b", ((1 : ℕ) : ℚ) / (((3 : ℕ) : ℚ) - 1) * 100) ∈
      compute_percentiles [("a", mkUser 1000 none "M"), ("b", mkUser 1200 none "M"),
        ("c", mkUser 1400 none "M")] :=
  (compute_percentiles_rank [("a", mkUser 1000 none "M"), ("b", mkUser 1200 none "M"),
      ("c", mkUser 1400 none "M")]).2.1 1 ("b", mkUser 1200 none "M") (by decide) (by decide)
